import Mathlib

/-!
Verification of the identifier / version-range utilities implemented in
`src/tools/projmgr/src/ProjMgrUtils.cpp` (with data types from
`src/tools/projmgr/include/ProjMgrUtils.h`).

C++ `std::string` values are embedded as `List Char`.  Helper routines that
belong to this repository but are outside `src/` (the `RteUtils` string
helpers, the `XmlItem` attribute map and the `VersionCmp` comparator) are
modelled from the specification; each such definition carries a doc comment
saying so.
-/

namespace ProjMgr

/-- C++ `std::string` is embedded as a list of characters. -/
abbrev Str := List Char

/-- Modelled from the spec: `RteUtils::GetPrefix(s, delimiter)` (missing from
`src/`) — the part of `s` before the first occurrence of `delimiter`, or the
whole string when the delimiter does not occur (spec §4.2: "split on `@`;
prefix before `@` is name"). -/
def getPrefix (s : Str) (c : Char) : Str :=
  s.takeWhile (fun x => x != c)

/-- Modelled from the spec: `RteUtils::GetSuffix(s, delimiter)` (missing from
`src/`) — the part of `s` after the last occurrence of `delimiter`, empty
when the delimiter does not occur (spec §4.1 step 2: "everything after the
last `@`"). -/
def getSuffix (s : Str) (c : Char) : Str :=
  if c ∈ s then (s.reverse.takeWhile (fun x => x != c)).reverse else []

/-- Modelled from the spec: substring containment, i.e. the C++ test
`s.find(pat) != std::string::npos`. -/
def hasSubstr (pat : Str) : Str → Bool
  | [] => pat.isEmpty
  | x :: xs => pat.isPrefixOf (x :: xs) || hasSubstr pat xs

/-- The `(name, minVer, maxVer)` triple produced by
`ProjMgrUtils::ExpandCompilerId` through its three output reference
parameters (callers pass default-constructed, i.e. empty, strings; an absent
bound is the empty string). -/
structure CompilerSpec where
  name : Str
  minVer : Str
  maxVer : Str
deriving DecidableEq

/-- Embeds `ProjMgrUtils::ExpandCompilerId` (ProjMgrUtils.cpp lines 253-268):
`name` is the prefix before the first `@`, `version` the suffix after the
last `@`; an empty version clause gives `minVer = "0.0.0"` and no upper
bound; a clause containing `">="` anywhere (`version.find(">=") != npos`)
gives `minVer = version.substr(2)` and no upper bound; otherwise the clause
is an exact version, `minVer = maxVer = version`. -/
def ExpandCompilerId (compiler : Str) : CompilerSpec :=
  let name := getPrefix compiler '@'
  let version := getSuffix compiler '@'
  if version = [] then
    ⟨name, "0.0.0".data, []⟩
  else if hasSubstr ">=".data version then
    ⟨name, version.drop 2, []⟩
  else
    ⟨name, version, version⟩

/-- Signed comparison of two version-segment lists (numeric, missing
segments count as zero). -/
def cmpNatList : List Nat → List Nat → Int
  | [], [] => 0
  | [], y :: ys => if (y :: ys).all (fun n => n == 0) then 0 else -1
  | x :: xs, [] => if (x :: xs).all (fun n => n == 0) then 0 else 1
  | x :: xs, y :: ys =>
    if x < y then -1 else if y < x then 1 else cmpNatList xs ys

/-- Numeric value of the leading decimal digits of a version segment. -/
def segValue (s : Str) : Nat :=
  (s.takeWhile Char.isDigit).foldl (fun n c => n * 10 + (c.toNat - 48)) 0

/-- Split a character list at every occurrence of `c` (all fragments kept). -/
def splitOnChar (c : Char) : Str → List Str
  | [] => [[]]
  | x :: xs =>
    match splitOnChar c xs with
    | [] => [[x]]
    | s :: ss => if x = c then [] :: s :: ss else (x :: s) :: ss

/-- Modelled from the spec: `VersionCmp::Compare` (missing from `src/`) — the
externally supplied total-order version comparator, "typically dotted-numeric
precedence comparison", returning negative/zero/positive (spec §4.2, §6). -/
def versionCompare (x y : Str) : Int :=
  cmpNatList ((splitOnChar '.' x).map segValue) ((splitOnChar '.' y).map segValue)

/-- Embeds `ProjMgrUtils::AreCompilersCompatible` (ProjMgrUtils.cpp lines 270-282).
The version comparator `cmp` stands for the external `VersionCmp::Compare`
(spec §6 treats it as an injected collaborator). -/
def AreCompilersCompatible (cmp : Str → Str → Int) (first second : Str) : Bool :=
  if first ≠ [] ∧ second ≠ [] then
    if (ExpandCompilerId first).name ≠ (ExpandCompilerId second).name ∨
        ((ExpandCompilerId first).maxVer ≠ [] ∧ (ExpandCompilerId second).minVer ≠ [] ∧
          cmp (ExpandCompilerId first).maxVer (ExpandCompilerId second).minVer < 0) ∨
        ((ExpandCompilerId second).maxVer ≠ [] ∧ (ExpandCompilerId first).minVer ≠ [] ∧
          cmp (ExpandCompilerId second).maxVer (ExpandCompilerId first).minVer < 0) then
      false
    else
      true
  else
    true

/-- The intermediate values `intersectName`, `intersectMin`, `intersectMax`
computed by `ProjMgrUtils::CompilersIntersect` (ProjMgrUtils.cpp lines
289-301) after the max-inheritance step: a missing max on either side
inherits the other side's max (the second assignment reads the already
updated first max, as in the source), the name is the first non-empty name,
the min the `cmp`-greater of the two mins, the max the `cmp`-lesser of the
two (inherited) maxes. -/
def intersectParts (cmp : Str → Str → Int) (first second : Str) : CompilerSpec :=
  let f := ExpandCompilerId first
  let s := ExpandCompilerId second
  let firstMax := if f.maxVer = [] then s.maxVer else f.maxVer
  let secondMax := if s.maxVer = [] then firstMax else s.maxVer
  ⟨if f.name = [] then s.name else f.name,
   if cmp f.minVer s.minVer < 0 then s.minVer else f.minVer,
   if cmp firstMax secondMax > 0 then secondMax else firstMax⟩

/-- The output encoding of `ProjMgrUtils::CompilersIntersect`
(ProjMgrUtils.cpp lines 302-315): no upper bound and min compares equal to
`"0.0.0"` gives the bare name; no upper bound otherwise gives
`name@>=min`; an upper bound equal (as a string) to the min gives
`name@min`; a defined upper bound different from the min assigns nothing,
so the out-parameter keeps its initial empty value. -/
def renderIntersection (cmp : Str → Str → Int) (p : CompilerSpec) : Str :=
  if p.maxVer = [] then
    if cmp p.minVer ("0.0.0".data) = 0 then p.name
    else p.name ++ "@>=".data ++ p.minVer
  else
    if p.minVer = p.maxVer then p.name ++ "@".data ++ p.minVer
    else []

/-- Embeds `ProjMgrUtils::CompilersIntersect` (ProjMgrUtils.cpp lines 284-316); the
C++ out-parameter starts empty and is modelled by the returned string. -/
def CompilersIntersect (cmp : Str → Str → Int) (first second : Str) : Str :=
  if (first = [] ∧ second = []) ∨ AreCompilersCompatible cmp first second = false then
    []
  else
    renderIntersection cmp (intersectParts cmp first second)

/-- Embeds `ProjMgrUtils::ConstructID` (ProjMgrUtils.cpp lines 144-152): fold over
the ordered `(delimiter, value)` pairs, appending `delimiter ++ value` for
every pair whose value is non-empty. -/
def ConstructID (elements : List (Str × Str)) : Str :=
  elements.foldl (fun id e => if e.2 = [] then id else id ++ e.1 ++ e.2) []

/-- The named string attributes an `RteItem` component exposes to
`ProjMgrUtils::GetComponentID` (vendor, Cclass, Cbundle, Cgroup, Csub,
Cvariant, version); the metadata provider is an opaque read-only attribute
bag (spec §6), so the component is embedded as this record of its getter
results. -/
structure ComponentAttrs where
  vendor : Str
  cclass : Str
  cbundle : Str
  cgroup : Str
  csub : Str
  cvariant : Str
  version : Str
deriving DecidableEq

/-- Embeds `ProjMgrUtils::GetComponentID` (ProjMgrUtils.cpp lines 30-45) for a
non-null component: the vendor (when non-empty) gets the `::` suffix, and
the element list is `vendor`, `Cclass`, `&Cbundle`, `:Cgroup`, `:Csub`,
`&Cvariant`, `@Cversion` (prefix constants from ProjMgrUtils.h). -/
def GetComponentID (c : ComponentAttrs) : Str :=
  let vendor := if c.vendor = [] then [] else c.vendor ++ "::".data
  ConstructID
    [([], vendor),
     ([], c.cclass),
     ("&".data, c.cbundle),
     (":".data, c.cgroup),
     (":".data, c.csub),
     ("&".data, c.cvariant),
     ("@".data, c.version)]

/-- Split a string at the first occurrence of a (non-empty) pattern,
returning the parts before and after it, or `none` when the pattern does not
occur. -/
def splitAtSubstr (pat : Str) : Str → Option (Str × Str)
  | [] => if pat.isEmpty then some ([], []) else none
  | x :: xs =>
    if pat.isPrefixOf (x :: xs) then some ([], (x :: xs).drop pat.length)
    else
      match splitAtSubstr pat xs with
      | some (b, a) => some (x :: b, a)
      | none => none

/-- Modelled from the spec: `RteUtils::RemoveSuffixByString` (missing from
`src/`) as used by the decomposition — "everything before [the first
`::`]" (spec §4.1 step 1); only invoked after a containment check, the
not-found fallback is the empty string. -/
def removeSuffixByString (s : Str) (pat : Str) : Str :=
  match splitAtSubstr pat s with
  | some (b, _) => b
  | none => []

/-- Modelled from the spec: `RteUtils::RemovePrefixByString` (missing from
`src/`) as used by the decomposition — the remainder after the first
occurrence of the pattern (spec §4.1 step 1); only invoked after a
containment check, the not-found fallback is the string itself. -/
def removePrefixByString (s : Str) (pat : Str) : Str :=
  match splitAtSubstr pat s with
  | some (_, a) => a
  | none => s

/-- Modelled from the spec: the `XmlItem` attribute container (missing from
`src/`).  Attribute maps are embedded as association lists read through
`List.lookup`; `setAttr` implements insert-or-overwrite by consing (the
newest binding shadows older ones, giving the documented last-write-wins
behaviour, spec §4.1 step 6). -/
abbrev AttrMap := List (String × Str)

/-- Insert-or-overwrite one attribute binding. -/
def setAttr (m : AttrMap) (k : String) (v : Str) : AttrMap :=
  (k, v) :: m

/-- Modelled from the spec: `XmlItem::AddAttribute(name, value, insertEmpty)`
(missing from `src/`): with `insertEmpty = false` an empty value is not
stored (a variant "overwrites one supplied in segment 2 **if both are
present**", spec §4.1 step 6); otherwise the value is stored
unconditionally. -/
def addAttr (m : AttrMap) (k : String) (v : Str) (insertEmpty : Bool) : AttrMap :=
  if insertEmpty = false ∧ v = [] then m else setAttr m k v

/-- One iteration of the segment loop of
`ProjMgrUtils::ComponentAttributesFromId` (ProjMgrUtils.cpp lines 97-115):
segment 0 is `Cclass[&Cbundle]`, segment 1 is `Cgroup[&Cvariant]`, segment 2
is `Csub[&Cvariant]`, later segments are ignored.  `Cbundle` and `Cvariant`
are added with `insertEmpty = false`. -/
def applySegment (m : AttrMap) (idx : Nat) (s : Str) : AttrMap :=
  match idx with
  | 0 => addAttr (addAttr m "Cclass" (getPrefix s '&') true) "Cbundle" (getSuffix s '&') false
  | 1 => addAttr (addAttr m "Cgroup" (getPrefix s '&') true) "Cvariant" (getSuffix s '&') false
  | 2 => addAttr (addAttr m "Csub" (getPrefix s '&') true) "Cvariant" (getSuffix s '&') false
  | _ => m

/-- The indexed loop over the `:`-segments. -/
def applySegments (m : AttrMap) (idx : Nat) : List Str → AttrMap
  | [] => m
  | s :: ss => applySegments (applySegment m idx s) (idx + 1) ss

/-- Embeds `ProjMgrUtils::ComponentAttributesFromId` (ProjMgrUtils.cpp lines
83-118): when the id contains `::` the part before it becomes `Cvendor` and
the remainder replaces the id; `Cversion` is the suffix after the last `@`
(stored even when empty); the prefix before the first `@` is split on `:`
and fed to the indexed segment loop. -/
def ComponentAttributesFromId (componentId : Str) : AttrMap :=
  let vendorPart : AttrMap × Str :=
    if hasSubstr "::".data componentId then
      (addAttr [] "Cvendor" (removeSuffixByString componentId "::".data) true,
       removePrefixByString componentId "::".data)
    else
      ([], componentId)
  let m1 := addAttr vendorPart.1 "Cversion" (getSuffix vendorPart.2 '@') true
  let id1 := getPrefix vendorPart.2 '@'
  applySegments m1 0 (splitOnChar ':' id1)

/-- The `ContextName` structure from `ProjMgrParser.h` (missing from `src/`),
modelled from the spec: the triple `(project, buildType, targetType)`
(spec §3). -/
structure ContextName where
  project : Str
  build : Str
  target : Str
deriving DecidableEq

/-- The part of `s` strictly before the last occurrence of `c` (empty when
`c` does not occur). -/
def beforeLast (s : Str) (c : Char) : Str :=
  ((s.reverse.dropWhile (fun x => x != c)).drop 1).reverse

/-- First `ParseContextEntry` rule (ProjMgrUtils.cpp line 338), the regex
`^(.*?)[.+].*$|^(.*)$`: when a `.` or `+` occurs, the lazy first alternative
captures everything before the first such separator; otherwise the second
alternative captures the whole string. -/
def parseProject (s : Str) : Str :=
  if s.any (fun c => c == '.' || c == '+') then
    s.takeWhile (fun c => !(c == '.' || c == '+'))
  else
    s

/-- Second `ParseContextEntry` rule (ProjMgrUtils.cpp line 340), the regex
`^.*\.(.*)\+.*$|^.*\.(.*).*$`: the first alternative matches when some `.`
has a `+` after it (equivalently `.` occurs before the last `+`) and, with
the greedy leading `.*`, captures the text between the last such `.` and the
last `+`; otherwise the second alternative captures everything after the
last `.`, and the field stays empty when no `.` occurs. -/
def parseBuild (s : Str) : Str :=
  if '.' ∈ beforeLast s '+' then getSuffix (beforeLast s '+') '.'
  else if '.' ∈ s then getSuffix s '.'
  else []

/-- Third `ParseContextEntry` rule (ProjMgrUtils.cpp line 342), the regex
`^.*\+(.*)\..*$|^.*\+(.*).*$`: symmetric to the build rule with `+` and `.`
exchanged. -/
def parseTarget (s : Str) : Str :=
  if '+' ∈ beforeLast s '.' then getSuffix (beforeLast s '.') '+'
  else if '+' ∈ s then getSuffix s '+'
  else []

/-- Embeds `ProjMgrUtils::ParseContextEntry` (ProjMgrUtils.cpp lines 334-352):
three independent regex rules, each evaluated against the full original
string. -/
def ParseContextEntry (contextEntry : Str) : ContextName :=
  ⟨parseProject contextEntry, parseBuild contextEntry, parseTarget contextEntry⟩

/-- Largest value of the C++ `int` type (32-bit on the supported
platforms); `std::stoi` throws `std::out_of_range` beyond it. -/
def intMaxValue : Nat := 2147483647

/-- The capture group of the regex `^[\+]?([0-9]+)$` of
`ProjMgrUtils::StringToInt`: the digits after an optional leading `+`, or
`none` when the string does not match (in particular for the empty
string). -/
def intDigits (s : Str) : Option Str :=
  match s with
  | '+' :: rest => if !rest.isEmpty && rest.all Char.isDigit then some rest else none
  | _ => if !s.isEmpty && s.all Char.isDigit then some s else none

/-- Numeric value of a digit string. -/
def digitsVal (s : Str) : Nat :=
  s.foldl (fun n c => n * 10 + (c.toNat - 48)) 0

/-- Embeds `std::stoi` on the captured digit string: `none` models the
`std::out_of_range` exception on overflow, swallowed by the surrounding
`catch`. -/
def stoiDigits (s : Str) : Option Int :=
  if digitsVal s ≤ intMaxValue then some (digitsVal s) else none

/-- Embeds `ProjMgrUtils::StringToInt` (ProjMgrUtils.cpp lines 240-250): `0` unless
the string matches `^[\+]?([0-9]+)$` and `stoi` succeeds on the captured
digits. -/
def StringToInt (value : Str) : Int :=
  match intDigits value with
  | some ds => (stoiDigits ds).getD 0
  | none => 0

/-- Embeds `OutputType` from ProjMgrUtils.h lines 37-40; the C++ field `on` is
named `onFlag` here because `on` is reserved in Lean. -/
structure OutputType where
  onFlag : Bool
  filename : Str
deriving DecidableEq

/-- Embeds `OutputTypes` from ProjMgrUtils.h lines 50-56. -/
structure OutputTypes where
  bin : OutputType
  elf : OutputType
  hex : OutputType
  lib : OutputType
  cmse : OutputType
deriving DecidableEq

/-- Embeds `ProjMgrUtils::SetOutputType` (ProjMgrUtils.cpp lines 354-366): compare
the type string against `"bin"`, `"elf"`, `"hex"`, `"lib"`, `"cmse-lib"`
(constants from ProjMgrUtils.h) and set the matching toggle's `on` flag to
`true`; an unrecognized string changes nothing. -/
def SetOutputType (typeString : Str) (type : OutputTypes) : OutputTypes :=
  if typeString = "bin".data then { type with bin := { type.bin with onFlag := true } }
  else if typeString = "elf".data then { type with elf := { type.elf with onFlag := true } }
  else if typeString = "hex".data then { type with hex := { type.hex with onFlag := true } }
  else if typeString = "lib".data then { type with lib := { type.lib with onFlag := true } }
  else if typeString = "cmse-lib".data then { type with cmse := { type.cmse with onFlag := true } }
  else type

/-! ## Basic lemmas about the string helpers -/

theorem takeWhile_all {p : Char → Bool} : ∀ s : Str, (∀ c ∈ s, p c = true) → s.takeWhile p = s
  | [], _ => rfl
  | x :: xs, h => by
    have hx := h x (List.mem_cons_self x xs)
    simp only [List.takeWhile_cons, hx, if_true]
    exact congrArg (x :: ·) (takeWhile_all xs fun c hc => h c (List.mem_cons_of_mem x hc))

theorem takeWhile_append_stop {p : Char → Bool} {c : Char} (hc : p c = false) :
    ∀ {w : Str} (z : Str), (∀ x ∈ w, p x = true) → (w ++ c :: z).takeWhile p = w
  | [], z, _ => by simp [List.takeWhile_cons, hc]
  | x :: w, z, h => by
    have hx := h x (List.mem_cons_self x w)
    simp only [List.cons_append, List.takeWhile_cons, hx, if_true]
    exact congrArg (x :: ·) (takeWhile_append_stop hc z fun y hy => h y (List.mem_cons_of_mem x hy))

theorem getPrefix_no {s : Str} {c : Char} (h : c ∉ s) : getPrefix s c = s :=
  takeWhile_all s fun x hx => by
    have : x ≠ c := fun he => h (he ▸ hx)
    simp [this]

theorem getPrefix_append {u : Str} (v : Str) {c : Char} (h : c ∉ u) :
    getPrefix (u ++ c :: v) c = u := by
  unfold getPrefix
  exact takeWhile_append_stop (by simp) v fun x hx => by
    have : x ≠ c := fun he => h (he ▸ hx)
    simp [this]

theorem getSuffix_no {s : Str} {c : Char} (h : c ∉ s) : getSuffix s c = [] := by
  simp [getSuffix, h]

theorem getSuffix_append (u : Str) {v : Str} {c : Char} (h : c ∉ v) :
    getSuffix (u ++ c :: v) c = v := by
  unfold getSuffix
  rw [if_pos (by simp)]
  rw [List.reverse_append, List.reverse_cons]
  rw [List.append_assoc, List.singleton_append]
  rw [takeWhile_append_stop (by simp) _ (fun x hx => by
    have hxv : x ∈ v := List.mem_reverse.mp hx
    have : x ≠ c := fun he => h (he ▸ hxv)
    simp [this])]
  exact List.reverse_reverse v

/-! ## C3: ExpandCompilerId -/

/-- Claim C3 is falsified at the input `"GCC@1>=2"`: the version clause
`"1>=2"` does not begin with `">="`, so the claim calls it an exact version
(`minVer = maxVer = "1>=2"`), but the source tests *containment* of `">="`
and strips the first two characters, producing `minVer = "=2"` with no upper
bound. -/
theorem expandCompilerId_cex :
    ¬ ((ExpandCompilerId ("GCC@1>=2".data)).minVer = "1>=2".data ∧
       (ExpandCompilerId ("GCC@1>=2".data)).maxVer = "1>=2".data) := by decide

/-- Claim C3 (amended).  For every specifier string, `ExpandCompilerId` splits
it into the name before the first `@` and the version clause after the last
`@`; an empty clause yields `minVer = "0.0.0"` with `maxVer` absent; a
clause *containing* `">="` yields `minVer` equal to the clause with its
first two characters removed and `maxVer` absent; a clause without `">="`
is an exact version (`minVer = maxVer =` clause).  In particular
`ExpandCompilerId "GCC@>=10.2.0"` gives name `"GCC"`, min `"10.2.0"`, max
absent. -/
theorem expandCompilerId_spec (compiler : Str) :
    (ExpandCompilerId compiler).name = getPrefix compiler '@' ∧
    (getSuffix compiler '@' = [] →
      ExpandCompilerId compiler = ⟨getPrefix compiler '@', "0.0.0".data, []⟩) ∧
    (getSuffix compiler '@' ≠ [] → hasSubstr ">=".data (getSuffix compiler '@') = true →
      ExpandCompilerId compiler =
        ⟨getPrefix compiler '@', (getSuffix compiler '@').drop 2, []⟩) ∧
    (getSuffix compiler '@' ≠ [] → hasSubstr ">=".data (getSuffix compiler '@') = false →
      ExpandCompilerId compiler =
        ⟨getPrefix compiler '@', getSuffix compiler '@', getSuffix compiler '@'⟩) ∧
    ExpandCompilerId ("GCC@>=10.2.0".data) = ⟨"GCC".data, "10.2.0".data, []⟩ := by
  refine ⟨?_, fun h => ?_, fun hne h => ?_, fun hne h => ?_, by decide⟩
  · simp only [ExpandCompilerId]
    split_ifs <;> rfl
  · simp [ExpandCompilerId, h]
  · simp [ExpandCompilerId, hne, h]
  · simp [ExpandCompilerId, hne, h]

/-- Witness for the amended claim C3 theorem at `"GCC@>=10.2.0"`. -/
theorem expandCompilerId_spec_witness :
    ExpandCompilerId ("GCC@>=10.2.0".data) =
      ⟨getPrefix ("GCC@>=10.2.0".data) '@',
       (getSuffix ("GCC@>=10.2.0".data) '@').drop 2, []⟩ :=
  (expandCompilerId_spec ("GCC@>=10.2.0".data)).2.2.1 (by decide) (by decide)

/-! ## C4, C5: compiler compatibility -/

/-- The exact condition under which `AreCompilersCompatible` answers
`false` (shared by the C4 and C5 developments). -/
theorem compat_false_iff (cmp : Str → Str → Int) (a b : Str) :
    AreCompilersCompatible cmp a b = false ↔
      (a ≠ [] ∧ b ≠ [] ∧
        ((ExpandCompilerId a).name ≠ (ExpandCompilerId b).name ∨
         ((ExpandCompilerId a).maxVer ≠ [] ∧ (ExpandCompilerId b).minVer ≠ [] ∧
           cmp (ExpandCompilerId a).maxVer (ExpandCompilerId b).minVer < 0) ∨
         ((ExpandCompilerId b).maxVer ≠ [] ∧ (ExpandCompilerId a).minVer ≠ [] ∧
           cmp (ExpandCompilerId b).maxVer (ExpandCompilerId a).minVer < 0))) := by
  unfold AreCompilersCompatible
  split_ifs with h1 h2
  · exact iff_of_true rfl ⟨h1.1, h1.2, h2⟩
  · exact iff_of_false (by simp) fun h => h2 h.2.2
  · exact iff_of_false (by simp) fun h => h1 ⟨h.1, h.2.1⟩

/-- Claim C4.  For every pair of specifier strings, `AreCompilersCompatible`
returns `true` when either specifier is empty; otherwise it expands both and
returns `false` exactly when the names differ, or when `first.max` and
`second.min` are both defined and compare strictly below, or symmetrically
(each comparison only made when both sides are defined).  In particular
`Compatible "GCC@6.0.0" "GCC@>=10.2.0"` is `false` and
`Compatible "gcc" ""` is `true` (with the dotted-numeric comparator). -/
theorem areCompilersCompatible_spec :
    (∀ (cmp : Str → Str → Int) (a b : Str),
      ((a = [] ∨ b = []) → AreCompilersCompatible cmp a b = true) ∧
      (AreCompilersCompatible cmp a b = false ↔
        (a ≠ [] ∧ b ≠ [] ∧
          ((ExpandCompilerId a).name ≠ (ExpandCompilerId b).name ∨
           ((ExpandCompilerId a).maxVer ≠ [] ∧ (ExpandCompilerId b).minVer ≠ [] ∧
             cmp (ExpandCompilerId a).maxVer (ExpandCompilerId b).minVer < 0) ∨
           ((ExpandCompilerId b).maxVer ≠ [] ∧ (ExpandCompilerId a).minVer ≠ [] ∧
             cmp (ExpandCompilerId b).maxVer (ExpandCompilerId a).minVer < 0))))) ∧
    AreCompilersCompatible versionCompare ("GCC@6.0.0".data) ("GCC@>=10.2.0".data) = false ∧
    AreCompilersCompatible versionCompare ("gcc".data) [] = true := by
  refine ⟨fun cmp a b => ⟨fun hab => ?_, compat_false_iff cmp a b⟩, by decide, by decide⟩
  cases hc : AreCompilersCompatible cmp a b with
  | true => rfl
  | false =>
    rcases (compat_false_iff cmp a b).mp hc with ⟨ha, hb, _⟩
    rcases hab with h | h
    · exact absurd h ha
    · exact absurd h hb

/-- Witness for the claim C4 theorem (the first conjunct's hypothesis
discharged at `a = ""`). -/
theorem areCompilersCompatible_spec_witness :
    AreCompilersCompatible versionCompare [] ("GCC".data) = true :=
  (areCompilersCompatible_spec.1 versionCompare [] ("GCC".data)).1 (Or.inl rfl)

/-- Claim C5.  `AreCompilersCompatible` is symmetric in its two specifier
arguments, for every version comparator. -/
theorem areCompilersCompatible_symm (cmp : Str → Str → Int) (a b : Str) :
    AreCompilersCompatible cmp a b = AreCompilersCompatible cmp b a := by
  have swap : ∀ x y : Str, AreCompilersCompatible cmp x y = false →
      AreCompilersCompatible cmp y x = false := by
    intro x y hxy
    rcases (compat_false_iff cmp x y).mp hxy with ⟨hx, hy, hc⟩
    refine (compat_false_iff cmp y x).mpr ⟨hy, hx, ?_⟩
    rcases hc with h | h | h
    · exact Or.inl (Ne.symm h)
    · exact Or.inr (Or.inr h)
    · exact Or.inr (Or.inl h)
  cases hab : AreCompilersCompatible cmp a b with
  | true =>
    cases hba : AreCompilersCompatible cmp b a with
    | true => rfl
    | false => rw [← hab, swap b a hba]
  | false =>
    rw [swap a b hab]

/-! ## C2: CompilersIntersect -/

theorem parts_name_left (cmp : Str → Str → Int) {a b : Str}
    (h : (ExpandCompilerId a).name ≠ []) :
    (intersectParts cmp a b).name = (ExpandCompilerId a).name := by
  simp [intersectParts, h]

theorem parts_name_left_nil (cmp : Str → Str → Int) {a b : Str}
    (h : (ExpandCompilerId a).name = []) :
    (intersectParts cmp a b).name = (ExpandCompilerId b).name := by
  simp [intersectParts, h]

theorem parts_min_lt (cmp : Str → Str → Int) {a b : Str}
    (h : cmp (ExpandCompilerId a).minVer (ExpandCompilerId b).minVer < 0) :
    (intersectParts cmp a b).minVer = (ExpandCompilerId b).minVer := by
  simp only [intersectParts]
  rw [if_pos h]

theorem parts_min_ge (cmp : Str → Str → Int) {a b : Str}
    (h : 0 ≤ cmp (ExpandCompilerId a).minVer (ExpandCompilerId b).minVer) :
    (intersectParts cmp a b).minVer = (ExpandCompilerId a).minVer := by
  simp only [intersectParts]
  rw [if_neg (by omega)]

theorem parts_max_left_nil (cmp : Str → Str → Int) {a b : Str}
    (h : (ExpandCompilerId a).maxVer = []) :
    (intersectParts cmp a b).maxVer = (ExpandCompilerId b).maxVer := by
  simp only [intersectParts, h, if_pos rfl]
  split_ifs <;> simp_all

theorem parts_max_right_nil (cmp : Str → Str → Int) {a b : Str}
    (h : (ExpandCompilerId b).maxVer = []) :
    (intersectParts cmp a b).maxVer = (ExpandCompilerId a).maxVer := by
  by_cases ha : (ExpandCompilerId a).maxVer = []
  · simp only [intersectParts, ha, h, if_pos rfl]
    split_ifs <;> simp_all
  · simp only [intersectParts, ha, h, if_neg ha, if_pos rfl]
    split_ifs <;> simp_all

theorem parts_max_both (cmp : Str → Str → Int) {a b : Str}
    (h : (ExpandCompilerId a).maxVer ≠ []) (h' : (ExpandCompilerId b).maxVer ≠ []) :
    (intersectParts cmp a b).maxVer =
      if cmp (ExpandCompilerId a).maxVer (ExpandCompilerId b).maxVer > 0
      then (ExpandCompilerId b).maxVer
      else (ExpandCompilerId a).maxVer := by
  simp [intersectParts, h, h']

/-- Claim C2.  For every comparator and pair of specifiers: the result is
empty when both inputs are empty or when the inputs are incompatible;
otherwise the result renders the intermediate triple, in which a missing max
bound on either side inherits the other side's max, the name is the first
non-empty input name (first argument taking precedence), the min is the
`cmp`-greater of the two mins, the max the `cmp`-lesser of the two
(inherited) maxes; and whenever the resulting max is defined and differs
from the resulting min, no output is produced.  In particular
`Intersect "GCC" "GCC@>=10.2.0"` yields `"GCC@>=10.2.0"` with the
dotted-numeric comparator. -/
theorem compilersIntersect_spec :
    (∀ (cmp : Str → Str → Int) (a b : Str),
      (((a = [] ∧ b = []) ∨ AreCompilersCompatible cmp a b = false) →
        CompilersIntersect cmp a b = []) ∧
      (¬ ((a = [] ∧ b = []) ∨ AreCompilersCompatible cmp a b = false) →
        CompilersIntersect cmp a b = renderIntersection cmp (intersectParts cmp a b)) ∧
      ((ExpandCompilerId a).name ≠ [] →
        (intersectParts cmp a b).name = (ExpandCompilerId a).name) ∧
      ((ExpandCompilerId a).name = [] →
        (intersectParts cmp a b).name = (ExpandCompilerId b).name) ∧
      (cmp (ExpandCompilerId a).minVer (ExpandCompilerId b).minVer < 0 →
        (intersectParts cmp a b).minVer = (ExpandCompilerId b).minVer) ∧
      (0 ≤ cmp (ExpandCompilerId a).minVer (ExpandCompilerId b).minVer →
        (intersectParts cmp a b).minVer = (ExpandCompilerId a).minVer) ∧
      ((ExpandCompilerId a).maxVer = [] →
        (intersectParts cmp a b).maxVer = (ExpandCompilerId b).maxVer) ∧
      ((ExpandCompilerId b).maxVer = [] →
        (intersectParts cmp a b).maxVer = (ExpandCompilerId a).maxVer) ∧
      ((ExpandCompilerId a).maxVer ≠ [] → (ExpandCompilerId b).maxVer ≠ [] →
        (intersectParts cmp a b).maxVer =
          (if cmp (ExpandCompilerId a).maxVer (ExpandCompilerId b).maxVer > 0
           then (ExpandCompilerId b).maxVer
           else (ExpandCompilerId a).maxVer)) ∧
      ((intersectParts cmp a b).maxVer ≠ [] →
        (intersectParts cmp a b).minVer ≠ (intersectParts cmp a b).maxVer →
        CompilersIntersect cmp a b = [])) ∧
    CompilersIntersect versionCompare ("GCC".data) ("GCC@>=10.2.0".data) =
      "GCC@>=10.2.0".data := by
  refine ⟨fun cmp a b => ⟨fun h => ?_, fun h => ?_, parts_name_left cmp,
    parts_name_left_nil cmp, parts_min_lt cmp, parts_min_ge cmp,
    parts_max_left_nil cmp, parts_max_right_nil cmp, parts_max_both cmp,
    fun h h' => ?_⟩, by decide⟩
  · rw [CompilersIntersect, if_pos h]
  · rw [CompilersIntersect, if_neg h]
  · rw [CompilersIntersect]
    split_ifs with hg
    · rfl
    · rw [renderIntersection, if_neg h, if_neg h']

/-- Witness for the claim C2 theorem: the empty/empty hypothesis and the
defined-max-differs hypothesis discharged at concrete inputs. -/
theorem compilersIntersect_spec_witness :
    CompilersIntersect versionCompare [] [] = [] ∧
    CompilersIntersect versionCompare ("GCC@1.0.0".data) ("GCC@>=2.0.0".data) = [] := by
  refine ⟨(compilersIntersect_spec.1 versionCompare [] []).1 (Or.inl ⟨rfl, rfl⟩), ?_⟩
  exact (compilersIntersect_spec.1 versionCompare ("GCC@1.0.0".data)
    ("GCC@>=2.0.0".data)).2.2.2.2.2.2.2.2.2 (by decide) (by decide)

/-! ## C6: commutativity of the intersection outcome -/

theorem cmpNatList_antisymm : ∀ xs ys, cmpNatList ys xs = -cmpNatList xs ys
  | [], [] => by simp [cmpNatList]
  | [], y :: ys => by
    simp only [cmpNatList]
    split_ifs <;> simp
  | x :: xs, [] => by
    simp only [cmpNatList]
    split_ifs <;> simp
  | x :: xs, y :: ys => by
    simp only [cmpNatList]
    rcases lt_trichotomy x y with h | h | h
    · rw [if_neg (by omega), if_pos h, if_pos h]
      decide
    · rw [if_neg (by omega), if_neg (by omega), if_neg (by omega), if_neg (by omega)]
      exact cmpNatList_antisymm xs ys
    · rw [if_pos h, if_neg (by omega), if_pos h]

/-- The modelled dotted-numeric comparator flips sign when its arguments are
exchanged (it really is a total-order comparator). -/
theorem versionCompare_antisymm (x y : Str) : versionCompare y x = -versionCompare x y :=
  cmpNatList_antisymm _ _

/-- Claim C6.  For every comparator whose sign flips under argument exchange
(the spec's total-order contract) and every pair of specifiers whose
intersections in both argument orders produce non-empty output, the two
outputs denote the same version range: both are the rendering of their
intermediate triple, the two triples carry the same name, mins that compare
equal, upper bounds that are defined on one side exactly when defined on the
other, and upper bounds that compare equal. -/
theorem compilersIntersect_comm (cmp : Str → Str → Int)
    (hsgn : ∀ x y, cmp x y < 0 ↔ cmp y x > 0)
    (a b : Str)
    (hab : CompilersIntersect cmp a b ≠ [])
    (hba : CompilersIntersect cmp b a ≠ []) :
    CompilersIntersect cmp a b = renderIntersection cmp (intersectParts cmp a b) ∧
    CompilersIntersect cmp b a = renderIntersection cmp (intersectParts cmp b a) ∧
    (intersectParts cmp a b).name = (intersectParts cmp b a).name ∧
    cmp (intersectParts cmp a b).minVer (intersectParts cmp b a).minVer = 0 ∧
    ((intersectParts cmp a b).maxVer = [] ↔ (intersectParts cmp b a).maxVer = []) ∧
    cmp (intersectParts cmp a b).maxVer (intersectParts cmp b a).maxVer = 0 := by
  have hrefl : ∀ x, cmp x x = 0 := by
    intro x
    rcases lt_trichotomy (cmp x x) 0 with h | h | h
    · have := (hsgn x x).mp h
      omega
    · exact h
    · have := (hsgn x x).mpr h
      omega
  have hzero : ∀ x y, cmp x y = 0 → cmp y x = 0 := by
    intro x y h
    rcases lt_trichotomy (cmp y x) 0 with h' | h' | h'
    · have := (hsgn y x).mp h'
      omega
    · exact h'
    · have := (hsgn x y).mpr h'
      omega
  have hga : ¬ ((a = [] ∧ b = []) ∨ AreCompilersCompatible cmp a b = false) := by
    intro hg
    rw [CompilersIntersect, if_pos hg] at hab
    exact hab rfl
  have hgb : ¬ ((b = [] ∧ a = []) ∨ AreCompilersCompatible cmp b a = false) := by
    intro hg
    rw [CompilersIntersect, if_pos hg] at hba
    exact hba rfl
  have hcompat : AreCompilersCompatible cmp a b = true := by
    cases h : AreCompilersCompatible cmp a b with
    | true => rfl
    | false => exact absurd (Or.inr h) hga
  have hmaxpair : ((intersectParts cmp a b).maxVer = [] ↔ (intersectParts cmp b a).maxVer = []) ∧
      cmp (intersectParts cmp a b).maxVer (intersectParts cmp b a).maxVer = 0 := by
    by_cases ha : (ExpandCompilerId a).maxVer = []
    · by_cases hb : (ExpandCompilerId b).maxVer = []
      · rw [parts_max_left_nil cmp ha, parts_max_left_nil cmp hb]
        refine ⟨iff_of_true hb ha, ?_⟩
        rw [ha, hb]
        exact hrefl _
      · rw [parts_max_left_nil cmp ha, parts_max_right_nil cmp ha]
        exact ⟨Iff.rfl, hrefl _⟩
    · by_cases hb : (ExpandCompilerId b).maxVer = []
      · rw [parts_max_right_nil cmp hb, parts_max_left_nil cmp hb]
        exact ⟨Iff.rfl, hrefl _⟩
      · rw [parts_max_both cmp ha hb, parts_max_both cmp hb ha]
        rcases lt_trichotomy (cmp (ExpandCompilerId a).maxVer (ExpandCompilerId b).maxVer) 0
          with h | h | h
        · have h' := (hsgn _ _).mp h
          rw [if_neg (by omega), if_pos h']
          exact ⟨Iff.rfl, hrefl _⟩
        · have h' := hzero _ _ h
          rw [if_neg (by omega), if_neg (by omega)]
          exact ⟨iff_of_false ha hb, h⟩
        · have h' := (hsgn _ _).mpr h
          rw [if_pos h, if_neg (by omega)]
          exact ⟨Iff.rfl, hrefl _⟩
  refine ⟨by rw [CompilersIntersect, if_neg hga], by rw [CompilersIntersect, if_neg hgb],
    ?_, ?_, hmaxpair.1, hmaxpair.2⟩
  · -- names agree
    by_cases hfa : (ExpandCompilerId a).name = []
    · by_cases hfb : (ExpandCompilerId b).name = []
      · rw [parts_name_left_nil cmp hfa, parts_name_left_nil cmp hfb, hfa, hfb]
      · rw [parts_name_left_nil cmp hfa, parts_name_left cmp hfb]
    · by_cases hfb : (ExpandCompilerId b).name = []
      · rw [parts_name_left cmp hfa, parts_name_left_nil cmp hfb]
      · have hane : a ≠ [] := fun h => hfa (by rw [h]; rfl)
        have hbne : b ≠ [] := fun h => hfb (by rw [h]; rfl)
        have heq : (ExpandCompilerId a).name = (ExpandCompilerId b).name := by
          by_contra hne
          have hfalse : AreCompilersCompatible cmp a b = false :=
            (compat_false_iff cmp a b).mpr ⟨hane, hbne, Or.inl hne⟩
          rw [hfalse] at hcompat
          exact Bool.false_ne_true hcompat
        rw [parts_name_left cmp hfa, parts_name_left cmp hfb]
        exact heq
  · -- mins compare equal
    rcases lt_trichotomy (cmp (ExpandCompilerId a).minVer (ExpandCompilerId b).minVer) 0
      with h | h | h
    · have h' := (hsgn _ _).mp h
      rw [parts_min_lt cmp h, parts_min_ge cmp (by omega)]
      exact hrefl _
    · have h' := hzero _ _ h
      rw [parts_min_ge cmp (by omega), parts_min_ge cmp (by omega)]
      exact h
    · have h' := (hsgn _ _).mpr h
      rw [parts_min_ge cmp (by omega), parts_min_lt cmp h']
      exact hrefl _

/-- Witness for the claim C6 theorem at the dotted-numeric comparator and the
pair `("GCC", "GCC@>=10.2.0")`, whose intersections are non-empty in both
orders. -/
theorem compilersIntersect_comm_witness :
    CompilersIntersect versionCompare ("GCC".data) ("GCC@>=10.2.0".data) =
      renderIntersection versionCompare
        (intersectParts versionCompare ("GCC".data) ("GCC@>=10.2.0".data)) ∧
    CompilersIntersect versionCompare ("GCC@>=10.2.0".data) ("GCC".data) =
      renderIntersection versionCompare
        (intersectParts versionCompare ("GCC@>=10.2.0".data) ("GCC".data)) ∧
    (intersectParts versionCompare ("GCC".data) ("GCC@>=10.2.0".data)).name =
      (intersectParts versionCompare ("GCC@>=10.2.0".data) ("GCC".data)).name ∧
    versionCompare (intersectParts versionCompare ("GCC".data) ("GCC@>=10.2.0".data)).minVer
      (intersectParts versionCompare ("GCC@>=10.2.0".data) ("GCC".data)).minVer = 0 ∧
    ((intersectParts versionCompare ("GCC".data) ("GCC@>=10.2.0".data)).maxVer = [] ↔
      (intersectParts versionCompare ("GCC@>=10.2.0".data) ("GCC".data)).maxVer = []) ∧
    versionCompare (intersectParts versionCompare ("GCC".data) ("GCC@>=10.2.0".data)).maxVer
      (intersectParts versionCompare ("GCC@>=10.2.0".data) ("GCC".data)).maxVer = 0 :=
  compilersIntersect_comm versionCompare
    (fun x y => by
      have h := versionCompare_antisymm x y
      constructor <;> intro hh <;> omega)
    ("GCC".data) ("GCC@>=10.2.0".data) (by decide) (by decide)

/-! ## C7: ConstructID -/

theorem constructID_foldl :
    ∀ (elements : List (Str × Str)) (acc : Str),
      elements.foldl (fun id e => if e.2 = [] then id else id ++ e.1 ++ e.2) acc =
        acc ++ (elements.map (fun e => if e.2 = [] then [] else e.1 ++ e.2)).flatten
  | [], acc => by simp
  | e :: es, acc => by
    by_cases h : e.2 = []
    · simp only [List.foldl_cons, List.map_cons, List.flatten_cons]
      rw [if_pos h, if_pos h, constructID_foldl es acc]
      simp
    · simp only [List.foldl_cons, List.map_cons, List.flatten_cons]
      rw [if_neg h, if_neg h, constructID_foldl es (acc ++ e.1 ++ e.2)]
      simp [List.append_assoc]

/-- Claim C7.  `ConstructID` returns the concatenation of `delimiter ++ value`
for exactly the pairs whose value is non-empty, in list order, with no
separator beyond each field's own leading delimiter (an empty value
contributes nothing, not even its delimiter); and the full component
identifier built from class `"Driver"`, group `"USART"`, version `"1.0.0"`
(all other fields empty) is `"Driver:USART@1.0.0"`. -/
theorem constructID_spec :
    (∀ elements : List (Str × Str),
      ConstructID elements =
        (elements.map (fun e => if e.2 = [] then [] else e.1 ++ e.2)).flatten) ∧
    GetComponentID ⟨[], "Driver".data, [], "USART".data, [], [], "1.0.0".data⟩ =
      "Driver:USART@1.0.0".data := by
  refine ⟨fun elements => ?_, by decide⟩
  rw [ConstructID, constructID_foldl elements []]
  simp

/-! ## C8: ParseContextEntry -/

/-- Claim C8.  For every input string, the project field is everything before
the first `.` or `+` when one of those separators exists, and the whole
string otherwise (equivalently: the longest separator-free prefix); build
and target are extracted by their own independent rules from the full
original string, and on the literal inputs `"myproj.Debug+Board"` and
`"myproj+Board"` the parser yields `("myproj", "Debug", "Board")` and
`("myproj", "", "Board")` respectively. -/
theorem parseContextEntry_spec :
    (∀ s : Str,
      (ParseContextEntry s).project = s.takeWhile (fun c => !(c == '.' || c == '+'))) ∧
    ParseContextEntry ("myproj.Debug+Board".data) =
      ⟨"myproj".data, "Debug".data, "Board".data⟩ ∧
    ParseContextEntry ("myproj+Board".data) = ⟨"myproj".data, [], "Board".data⟩ := by
  refine ⟨fun s => ?_, by decide, by decide⟩
  show parseProject s = _
  unfold parseProject
  split_ifs with h
  · rfl
  · refine (takeWhile_all s fun c hc => ?_).symm
    simp only [List.any_eq_true, not_exists, not_and] at h
    simp [h c hc]

/-! ## C9: StringToInt -/

/-- Claim C9.  For every input string, `StringToInt` returns the parsed
integer when the string matches `^\+?[0-9]+$` (captured by `intDigits`) and
the value fits in a 32-bit `int`, and returns `0` for non-matching (in
particular empty) input as well as on overflow; the embedding is a total
function, reflecting that the C++ catches the `stoi` exception and never
signals an error.  The literal cases `"+123"`, `"abc"`, `""` and an
overflowing 20-digit number behave accordingly. -/
theorem stringToInt_spec :
    (∀ s : Str,
      (intDigits s = none → StringToInt s = 0) ∧
      (∀ ds, intDigits s = some ds →
        (digitsVal ds ≤ intMaxValue → StringToInt s = (digitsVal ds : Int)) ∧
        (intMaxValue < digitsVal ds → StringToInt s = 0))) ∧
    StringToInt ("+123".data) = 123 ∧ StringToInt ("abc".data) = 0 ∧
    StringToInt [] = 0 ∧ StringToInt ("99999999999999999999".data) = 0 := by
  refine ⟨fun s => ⟨fun h => ?_, fun ds h => ⟨fun hle => ?_, fun hgt => ?_⟩⟩,
    by decide, by decide, by decide, by decide⟩
  · rw [StringToInt, h]
  · rw [StringToInt, h]
    simp [stoiDigits, hle]
  · rw [StringToInt, h]
    simp [stoiDigits, not_le.mpr hgt]

/-- Witness for the claim C9 theorem: the match and overflow hypotheses
discharged at `"+123"` and at a 20-digit number. -/
theorem stringToInt_spec_witness :
    StringToInt ("+123".data) = (digitsVal ("123".data) : Int) ∧
    StringToInt ("99999999999999999999".data) = 0 := by
  refine ⟨((stringToInt_spec.1 ("+123".data)).2 ("123".data) (by decide)).1 (by decide), ?_⟩
  exact ((stringToInt_spec.1 ("99999999999999999999".data)).2
    ("99999999999999999999".data) (by decide)).2 (by decide)

/-! ## C10: SetOutputType -/

/-- Claim C10.  For every type string and `OutputTypes` state, `SetOutputType`
leaves every filename unchanged; each toggle's `on` flag afterwards is
`true` exactly when it was already `true` or the type string names that
toggle (so a flag is never switched from on to off, and only the named
toggle can change); and when the type string names none of the five toggles
the whole structure is returned unchanged. -/
theorem setOutputType_spec (ts : Str) (t : OutputTypes) :
    (SetOutputType ts t).bin.filename = t.bin.filename ∧
    (SetOutputType ts t).elf.filename = t.elf.filename ∧
    (SetOutputType ts t).hex.filename = t.hex.filename ∧
    (SetOutputType ts t).lib.filename = t.lib.filename ∧
    (SetOutputType ts t).cmse.filename = t.cmse.filename ∧
    (SetOutputType ts t).bin.onFlag = (if ts = "bin".data then true else t.bin.onFlag) ∧
    (SetOutputType ts t).elf.onFlag = (if ts = "elf".data then true else t.elf.onFlag) ∧
    (SetOutputType ts t).hex.onFlag = (if ts = "hex".data then true else t.hex.onFlag) ∧
    (SetOutputType ts t).lib.onFlag = (if ts = "lib".data then true else t.lib.onFlag) ∧
    (SetOutputType ts t).cmse.onFlag = (if ts = "cmse-lib".data then true else t.cmse.onFlag) ∧
    (ts ≠ "bin".data → ts ≠ "elf".data → ts ≠ "hex".data → ts ≠ "lib".data →
      ts ≠ "cmse-lib".data → SetOutputType ts t = t) := by
  unfold SetOutputType
  split_ifs with h1 h2 h3 h4 h5 <;>
    simp_all [(by decide : "bin".data ≠ "elf".data), (by decide : "bin".data ≠ "hex".data),
      (by decide : "bin".data ≠ "lib".data), (by decide : "bin".data ≠ "cmse-lib".data),
      (by decide : "elf".data ≠ "hex".data), (by decide : "elf".data ≠ "lib".data),
      (by decide : "elf".data ≠ "cmse-lib".data), (by decide : "hex".data ≠ "lib".data),
      (by decide : "hex".data ≠ "cmse-lib".data), (by decide : "lib".data ≠ "cmse-lib".data)]

/-- Witness for the claim C10 theorem: the unknown-string hypotheses
discharged at `"foo"` on a concrete state. -/
theorem setOutputType_spec_witness :
    SetOutputType ("foo".data) ⟨⟨true, "a".data⟩, ⟨false, []⟩, ⟨false, []⟩, ⟨false, []⟩,
        ⟨false, "b".data⟩⟩ =
      ⟨⟨true, "a".data⟩, ⟨false, []⟩, ⟨false, []⟩, ⟨false, []⟩, ⟨false, "b".data⟩⟩ :=
  (setOutputType_spec ("foo".data) _).2.2.2.2.2.2.2.2.2.2
    (by decide) (by decide) (by decide) (by decide) (by decide)

/-! ## C1: component identifier round-trip -/

theorem hasSubstr_nil (pat : Str) : hasSubstr pat [] = pat.isEmpty := rfl

theorem hasSubstr_cc_skip {x : Char} (hx : x ≠ ':') (s : Str) :
    hasSubstr "::".data (x :: s) = hasSubstr "::".data s := by
  show (List.isPrefixOf [':', ':'] (x :: s) || hasSubstr "::".data s) = _
  have : List.isPrefixOf [':', ':'] (x :: s) = false := by
    simp [List.isPrefixOf]
    intro h
    exact absurd h.symm hx
  rw [this, Bool.false_or]

theorem hasSubstr_cc_skipAll {u : Str} (hu : ':' ∉ u) (v : Str) :
    hasSubstr "::".data (u ++ v) = hasSubstr "::".data v := by
  induction u with
  | nil => rfl
  | cons x xs ih =>
    have hx : x ≠ ':' := fun h => hu (h ▸ List.mem_cons_self x xs)
    rw [List.cons_append, hasSubstr_cc_skip hx]
    exact ih fun h => hu (List.mem_cons_of_mem x h)

theorem hasSubstr_cc_none {s : Str} (hs : ':' ∉ s) : hasSubstr "::".data s = false := by
  have := hasSubstr_cc_skipAll hs []
  rw [List.append_nil] at this
  rw [this]
  rfl

theorem hasSubstr_cc_colon {v : Str} (hv : v.head? ≠ some ':') :
    hasSubstr "::".data (':' :: v) = hasSubstr "::".data v := by
  show (List.isPrefixOf [':', ':'] (':' :: v) || hasSubstr "::".data v) = _
  have : List.isPrefixOf [':', ':'] (':' :: v) = false := by
    cases v with
    | nil => rfl
    | cons y ys =>
      have hy : y ≠ ':' := fun h => hv (by rw [h]; rfl)
      simp [List.isPrefixOf]
      intro h
      exact absurd h.symm hy
  rw [this, Bool.false_or]

theorem hasSubstr_cc_of_split (u v : Str) :
    hasSubstr "::".data (u ++ ':' :: ':' :: v) = true := by
  induction u with
  | nil =>
    show (List.isPrefixOf [':', ':'] (':' :: ':' :: v) || _) = true
    simp [List.isPrefixOf]
  | cons x xs ih =>
    show (_ || hasSubstr "::".data (xs ++ ':' :: ':' :: v)) = true
    rw [ih, Bool.or_true]

theorem splitAtSubstr_cc {u : Str} (hu : ':' ∉ u) (v : Str) :
    splitAtSubstr "::".data (u ++ ':' :: ':' :: v) = some (u, v) := by
  induction u with
  | nil =>
    show splitAtSubstr [':', ':'] (':' :: ':' :: v) = some ([], v)
    rw [splitAtSubstr, if_pos (by simp [List.isPrefixOf])]
    rfl
  | cons x xs ih =>
    have hx : x ≠ ':' := fun h => hu (h ▸ List.mem_cons_self x xs)
    have hxs : ':' ∉ xs := fun h => hu (List.mem_cons_of_mem x h)
    rw [List.cons_append, splitAtSubstr, if_neg (by
      simp [List.isPrefixOf]
      intro h
      exact absurd h.symm hx)]
    rw [ih hxs]

theorem splitOnChar_no {c : Char} : ∀ {u : Str}, c ∉ u → splitOnChar c u = [u]
  | [], _ => rfl
  | x :: xs, h => by
    have hx : x ≠ c := fun he => h (he ▸ List.mem_cons_self x xs)
    rw [splitOnChar, splitOnChar_no fun hm => h (List.mem_cons_of_mem x hm)]
    simp [hx]

theorem splitOnChar_ne_nil (c : Char) : ∀ s : Str, splitOnChar c s ≠ []
  | [] => by simp [splitOnChar]
  | x :: xs => by
    rw [splitOnChar]
    rcases h : splitOnChar c xs with _ | ⟨s, ss⟩
    · exact absurd h (splitOnChar_ne_nil c xs)
    · split_ifs <;> simp

theorem splitOnChar_cons_ne {c x : Char} {xs : Str} (hx : x ≠ c) :
    splitOnChar c (x :: xs) =
      (x :: (splitOnChar c xs).headD []) :: (splitOnChar c xs).tail := by
  rw [splitOnChar]
  rcases hsp : splitOnChar c xs with _ | ⟨s, ss⟩
  · exact absurd hsp (splitOnChar_ne_nil c xs)
  · simp [hx]

theorem splitOnChar_app {c : Char} : ∀ {u : Str}, c ∉ u →
    ∀ v, splitOnChar c (u ++ c :: v) = u :: splitOnChar c v
  | [], _, v => by
    rw [List.nil_append, splitOnChar]
    rcases h : splitOnChar c v with _ | ⟨s, ss⟩
    · exact absurd h (splitOnChar_ne_nil c v)
    · simp [h]
  | x :: xs, h, v => by
    have hx : x ≠ c := fun he => h (he ▸ List.mem_cons_self x xs)
    have hxs : c ∉ xs := fun hm => h (List.mem_cons_of_mem x hm)
    rw [List.cons_append, splitOnChar_cons_ne hx, splitOnChar_app hxs v]
    simp

theorem not_mem_opt {c d : Char} {v : Str} (hne : c ≠ d) (hv : c ∉ v) :
    c ∉ (if v = [] then [] else d :: v) := by
  split_ifs with h
  · simp
  · simp [hne, hv]

theorem getPrefix_opt {c : Char} {u v : Str} (hu : c ∉ u) :
    getPrefix (u ++ (if v = [] then [] else c :: v)) c = u := by
  split_ifs with h
  · rw [List.append_nil]
    exact getPrefix_no hu
  · exact getPrefix_append v hu

theorem getSuffix_opt {c : Char} {u v : Str} (hu : c ∉ u) (hv : c ∉ v) :
    getSuffix (u ++ (if v = [] then [] else c :: v)) c = v := by
  split_ifs with h
  · rw [List.append_nil, getSuffix_no hu, h]
  · exact getSuffix_append u hv

theorem data_cc : "::".data = [':', ':'] := rfl

/-- A field value free of the three delimiter characters used by the
component identifier grammar. -/
def plainField (s : Str) : Prop := ':' ∉ s ∧ '&' ∉ s ∧ '@' ∉ s

instance (s : Str) : Decidable (plainField s) := by
  unfold plainField
  infer_instance

/-- The identifier built by `GetComponentID`, written as an explicit
concatenation of the optional delimited fields. -/
theorem getComponentID_shape (V C B G S W R : Str) (hC : C ≠ []) :
    GetComponentID ⟨V, C, B, G, S, W, R⟩ =
      (if V = [] then [] else V ++ ':' :: ':' :: []) ++
      (C ++ ((if B = [] then [] else '&' :: B) ++ ((if G = [] then [] else ':' :: G) ++
        ((if S = [] then [] else ':' :: S) ++ ((if W = [] then [] else '&' :: W) ++
          (if R = [] then [] else '@' :: R)))))) := by
  by_cases hV : V = [] <;> by_cases hB : B = [] <;> by_cases hG : G = [] <;>
    by_cases hS : S = [] <;> by_cases hW : W = [] <;> by_cases hR : R = [] <;>
    simp [GetComponentID, ConstructID, hV, hB, hG, hS, hW, hR, hC, data_cc,
      List.append_eq_nil, List.append_assoc]

theorem hasSubstr_cc_opt_skip {d : Char} {v : Str} (hd : d ≠ ':') (hv : ':' ∉ v)
    (rest : Str) :
    hasSubstr "::".data ((if v = [] then [] else d :: v) ++ rest) =
      hasSubstr "::".data rest := by
  split_ifs with h
  · rw [List.nil_append]
  · rw [List.cons_append, hasSubstr_cc_skip hd, hasSubstr_cc_skipAll hv]

theorem hasSubstr_cc_optColon_skip {v : Str} (hv : ':' ∉ v) (rest : Str) :
    hasSubstr "::".data ((if v = [] then [] else ':' :: v) ++ rest) =
      hasSubstr "::".data rest := by
  split_ifs with h
  · rw [List.nil_append]
  · obtain ⟨x, v', rfl⟩ := List.exists_cons_of_ne_nil h
    have hx : x ≠ ':' := fun he => hv (he ▸ List.mem_cons_self x v')
    rw [List.cons_append, List.cons_append, hasSubstr_cc_colon (by simp [hx]),
      hasSubstr_cc_skip hx,
      hasSubstr_cc_skipAll fun hm => hv (List.mem_cons_of_mem x hm)]

/-- The vendor-less identifier body contains no `::`. -/
theorem body_no_cc {C B G S W R : Str} (pC1 : ':' ∉ C) (pB1 : ':' ∉ B) (pG1 : ':' ∉ G)
    (pS1 : ':' ∉ S) (pW1 : ':' ∉ W) (pR1 : ':' ∉ R) :
    hasSubstr "::".data (C ++ ((if B = [] then [] else '&' :: B) ++
      ((if G = [] then [] else ':' :: G) ++ ((if S = [] then [] else ':' :: S) ++
        ((if W = [] then [] else '&' :: W) ++ (if R = [] then [] else '@' :: R)))))) =
      false := by
  rw [hasSubstr_cc_skipAll pC1, hasSubstr_cc_opt_skip (by decide) pB1,
    hasSubstr_cc_optColon_skip pG1, hasSubstr_cc_optColon_skip pS1,
    hasSubstr_cc_opt_skip (by decide) pW1]
  split_ifs with h
  · rfl
  · exact hasSubstr_cc_none (by simp [pR1])

/-- Decomposition of the vendor-less body: `Cversion` is stripped after the
last `@`, the remainder is split on `:` and the indexed segment loop stores
the class/bundle/group/sub/variant attributes on top of the vendor map
`m0`. -/
theorem decompose_body (m0 : AttrMap) (C B G S W R : Str)
    (hm0 : ∀ k : String, k ≠ "Cvendor" → m0.lookup k = none)
    (pC : plainField C) (pB : plainField B) (pG : plainField G) (pS : plainField S)
    (pW : plainField W) (pR : plainField R)
    (hSG : S ≠ [] → G ≠ []) (hWG : W ≠ [] → G ≠ []) (body : Str) (m : AttrMap)
    (hbody : body = C ++ ((if B = [] then [] else '&' :: B) ++
      ((if G = [] then [] else ':' :: G) ++ ((if S = [] then [] else ':' :: S) ++
        ((if W = [] then [] else '&' :: W) ++ (if R = [] then [] else '@' :: R))))))
    (hm : m = applySegments (addAttr m0 "Cversion" (getSuffix body '@') true) 0
      (splitOnChar ':' (getPrefix body '@'))) :
    m.lookup "Cvendor" = m0.lookup "Cvendor" ∧
    m.lookup "Cclass" = some C ∧
    (m.lookup "Cbundle").getD [] = B ∧
    (m.lookup "Cgroup").getD [] = G ∧
    (m.lookup "Csub").getD [] = S ∧
    (m.lookup "Cvariant").getD [] = W ∧
    m.lookup "Cversion" = some R := by
  obtain ⟨pC1, pC2, pC3⟩ := pC
  obtain ⟨pB1, pB2, pB3⟩ := pB
  obtain ⟨pG1, pG2, pG3⟩ := pG
  obtain ⟨pS1, pS2, pS3⟩ := pS
  obtain ⟨pW1, pW2, pW3⟩ := pW
  obtain ⟨pR1, pR2, pR3⟩ := pR
  have hfront : '@' ∉ C ++ ((if B = [] then [] else '&' :: B) ++
      ((if G = [] then [] else ':' :: G) ++ ((if S = [] then [] else ':' :: S) ++
        (if W = [] then [] else '&' :: W)))) := by
    simp only [List.mem_append, not_or]
    exact ⟨pC3, not_mem_opt (by decide) pB3, not_mem_opt (by decide) pG3,
      not_mem_opt (by decide) pS3, not_mem_opt (by decide) pW3⟩
  have hsplit : body = (C ++ ((if B = [] then [] else '&' :: B) ++
      ((if G = [] then [] else ':' :: G) ++ ((if S = [] then [] else ':' :: S) ++
        (if W = [] then [] else '&' :: W))))) ++ (if R = [] then [] else '@' :: R) := by
    rw [hbody]
    simp [List.append_assoc]
  have hver : getSuffix body '@' = R := by
    rw [hsplit]
    exact getSuffix_opt hfront pR3
  have hpre : getPrefix body '@' = C ++ ((if B = [] then [] else '&' :: B) ++
      ((if G = [] then [] else ':' :: G) ++ ((if S = [] then [] else ':' :: S) ++
        (if W = [] then [] else '&' :: W)))) := by
    rw [hsplit]
    exact getPrefix_opt hfront
  have hnc0 : ':' ∉ C ++ (if B = [] then [] else '&' :: B) := by
    simp only [List.mem_append, not_or]
    exact ⟨pC1, not_mem_opt (by decide) pB1⟩
  subst hm
  rw [hver, hpre]
  by_cases hG : G = []
  · -- no group, hence no sub, no variant: a single segment
    have hS : S = [] := by
      by_contra h
      exact hSG h hG
    have hW : W = [] := by
      by_contra h
      exact hWG h hG
    have hfront1 : C ++ ((if B = [] then [] else '&' :: B) ++
        ((if G = [] then [] else ':' :: G) ++ ((if S = [] then [] else ':' :: S) ++
          (if W = [] then [] else '&' :: W)))) = C ++ (if B = [] then [] else '&' :: B) := by
      simp [hG, hS, hW]
    rw [hfront1, splitOnChar_no hnc0]
    simp only [applySegments, applySegment]
    rw [getPrefix_opt pC2, getSuffix_opt pC2 pB2]
    by_cases hB : B = [] <;>
      simp [addAttr, setAttr, List.lookup, hB, hG, hS, hW,
        hm0 "Cclass" (by decide), hm0 "Cbundle" (by decide), hm0 "Cgroup" (by decide),
        hm0 "Csub" (by decide), hm0 "Cvariant" (by decide)]
  · by_cases hS : S = []
    · -- class segment and group segment (variant, if any, on the group segment)
      have hfront2 : C ++ ((if B = [] then [] else '&' :: B) ++
          ((if G = [] then [] else ':' :: G) ++ ((if S = [] then [] else ':' :: S) ++
            (if W = [] then [] else '&' :: W)))) =
          (C ++ (if B = [] then [] else '&' :: B)) ++
            ':' :: (G ++ (if W = [] then [] else '&' :: W)) := by
        simp [hG, hS, List.append_assoc]
      have hncGW : ':' ∉ G ++ (if W = [] then [] else '&' :: W) := by
        simp only [List.mem_append, not_or]
        exact ⟨pG1, not_mem_opt (by decide) pW1⟩
      rw [hfront2, splitOnChar_app hnc0, splitOnChar_no hncGW]
      simp only [applySegments, applySegment]
      rw [getPrefix_opt pC2, getSuffix_opt pC2 pB2, getPrefix_opt pG2, getSuffix_opt pG2 pW2]
      by_cases hB : B = [] <;> by_cases hW : W = [] <;>
        simp [addAttr, setAttr, List.lookup, hB, hW, hS,
          hm0 "Cclass" (by decide), hm0 "Cbundle" (by decide), hm0 "Cgroup" (by decide),
          hm0 "Csub" (by decide), hm0 "Cvariant" (by decide)]
    · -- class, group and sub segments (variant, if any, on the sub segment)
      have hfront3 : C ++ ((if B = [] then [] else '&' :: B) ++
          ((if G = [] then [] else ':' :: G) ++ ((if S = [] then [] else ':' :: S) ++
            (if W = [] then [] else '&' :: W)))) =
          (C ++ (if B = [] then [] else '&' :: B)) ++
            ':' :: (G ++ ':' :: (S ++ (if W = [] then [] else '&' :: W))) := by
        simp [hG, hS, List.append_assoc]
      have hncSW : ':' ∉ S ++ (if W = [] then [] else '&' :: W) := by
        simp only [List.mem_append, not_or]
        exact ⟨pS1, not_mem_opt (by decide) pW1⟩
      rw [hfront3, splitOnChar_app hnc0, splitOnChar_app pG1, splitOnChar_no hncSW]
      simp only [applySegments, applySegment]
      rw [getPrefix_opt pC2, getSuffix_opt pC2 pB2, getPrefix_no pG2, getSuffix_no pG2,
        getPrefix_opt pS2, getSuffix_opt pS2 pW2]
      by_cases hB : B = [] <;> by_cases hW : W = [] <;>
        simp [addAttr, setAttr, List.lookup, hB, hW,
          hm0 "Cclass" (by decide), hm0 "Cbundle" (by decide), hm0 "Cgroup" (by decide),
          hm0 "Csub" (by decide), hm0 "Cvariant" (by decide)]

theorem componentAttributes_novendor (body : Str)
    (hcc : hasSubstr "::".data body = false) :
    ComponentAttributesFromId body =
      applySegments (addAttr [] "Cversion" (getSuffix body '@') true) 0
        (splitOnChar ':' (getPrefix body '@')) := by
  simp only [ComponentAttributesFromId, hcc]
  rfl

theorem componentAttributes_vendor (V body : Str) (hV1 : ':' ∉ V) :
    ComponentAttributesFromId (V ++ ':' :: ':' :: body) =
      applySegments
        (addAttr (addAttr [] "Cvendor" V true) "Cversion" (getSuffix body '@') true) 0
        (splitOnChar ':' (getPrefix body '@')) := by
  have hcc := hasSubstr_cc_of_split V body
  have hsp := splitAtSubstr_cc hV1 body
  rw [data_cc] at hcc hsp
  simp only [ComponentAttributesFromId, data_cc, hcc, removeSuffixByString,
    removePrefixByString, hsp]
  simp

/-- Claim C1 is falsified at the attribute set with class `"Driver"` and sub
`"USART"` (all other fields empty): the constructed identifier is
`"Driver:USART"`, and decomposing it does not recover the populated sub
field — the sub value lands in the `Cgroup` attribute and `Csub` is absent
(this input is not an instance of the documented variant collision, since
neither segment carries a variant suffix). -/
theorem componentId_roundtrip_cex :
    GetComponentID ⟨[], "Driver".data, [], [], "USART".data, [], []⟩ = "Driver:USART".data ∧
    (ComponentAttributesFromId ("Driver:USART".data)).lookup "Csub" = none ∧
    (ComponentAttributesFromId ("Driver:USART".data)).lookup "Cgroup" =
      some ("USART".data) := by
  decide

/-- Claim C1 (amended).  For every attribute set in which the class name is
present, every field value is free of the delimiter characters `:`, `&`,
`@`, and the populated subset respects the identifier hierarchy (a
populated sub requires a populated group, and a populated variant requires
a populated group), decomposing the full component identifier recovers
exactly the populated fields: each attribute lookup, read as the empty
string when absent, returns the original field value.  Under these
conditions the documented variant last-write-wins collision cannot occur
(construction never puts a variant suffix on both the group and the sub
segment). -/
theorem componentId_roundtrip (V C B G S W R : Str) (hC : C ≠ [])
    (pV : plainField V) (pC : plainField C) (pB : plainField B) (pG : plainField G)
    (pS : plainField S) (pW : plainField W) (pR : plainField R)
    (hSG : S ≠ [] → G ≠ []) (hWG : W ≠ [] → G ≠ []) :
    (((ComponentAttributesFromId
        (GetComponentID ⟨V, C, B, G, S, W, R⟩)).lookup "Cvendor").getD [] = V) ∧
    (((ComponentAttributesFromId
        (GetComponentID ⟨V, C, B, G, S, W, R⟩)).lookup "Cclass").getD [] = C) ∧
    (((ComponentAttributesFromId
        (GetComponentID ⟨V, C, B, G, S, W, R⟩)).lookup "Cbundle").getD [] = B) ∧
    (((ComponentAttributesFromId
        (GetComponentID ⟨V, C, B, G, S, W, R⟩)).lookup "Cgroup").getD [] = G) ∧
    (((ComponentAttributesFromId
        (GetComponentID ⟨V, C, B, G, S, W, R⟩)).lookup "Csub").getD [] = S) ∧
    (((ComponentAttributesFromId
        (GetComponentID ⟨V, C, B, G, S, W, R⟩)).lookup "Cvariant").getD [] = W) ∧
    (((ComponentAttributesFromId
        (GetComponentID ⟨V, C, B, G, S, W, R⟩)).lookup "Cversion").getD [] = R) := by
  rw [getComponentID_shape V C B G S W R hC]
  by_cases hV : V = []
  · rw [if_pos hV, List.nil_append,
      componentAttributes_novendor _ (body_no_cc pC.1 pB.1 pG.1 pS.1 pW.1 pR.1)]
    have hd := decompose_body [] C B G S W R (fun _ _ => rfl) pC pB pG pS pW pR
      hSG hWG _ _ rfl rfl
    refine ⟨?_, ?_, hd.2.2.1, hd.2.2.2.1, hd.2.2.2.2.1, hd.2.2.2.2.2.1, ?_⟩
    · rw [hd.1]
      simp [hV]
    · rw [hd.2.1]
      rfl
    · rw [hd.2.2.2.2.2.2]
      rfl
  · rw [if_neg hV,
      show ∀ x y : Str, (x ++ ':' :: ':' :: []) ++ y = x ++ ':' :: ':' :: y from
        fun x y => by simp,
      componentAttributes_vendor V _ pV.1]
    have hm0v : ∀ k : String, k ≠ "Cvendor" → (addAttr [] "Cvendor" V true).lookup k = none := by
      intro k hk
      have hb : (k == "Cvendor") = false := by simp [hk]
      simp [addAttr, setAttr, List.lookup, hb]
    have hd := decompose_body (addAttr [] "Cvendor" V true) C B G S W R hm0v
      pC pB pG pS pW pR hSG hWG _ _ rfl rfl
    refine ⟨?_, ?_, hd.2.2.1, hd.2.2.2.1, hd.2.2.2.2.1, hd.2.2.2.2.2.1, ?_⟩
    · rw [hd.1]
      simp [addAttr, setAttr, List.lookup]
    · rw [hd.2.1]
      rfl
    · rw [hd.2.2.2.2.2.2]
      rfl

/-- Witness for the amended claim C1 theorem at a fully populated attribute
set. -/
theorem componentId_roundtrip_witness :
    (((ComponentAttributesFromId (GetComponentID ⟨"ARM".data, "Driver".data, "Bundle".data,
        "USART".data, "Sub".data, "Var".data, "1.0.0".data⟩)).lookup "Cvendor").getD [] =
      "ARM".data) ∧
    (((ComponentAttributesFromId (GetComponentID ⟨"ARM".data, "Driver".data, "Bundle".data,
        "USART".data, "Sub".data, "Var".data, "1.0.0".data⟩)).lookup "Cclass").getD [] =
      "Driver".data) ∧
    (((ComponentAttributesFromId (GetComponentID ⟨"ARM".data, "Driver".data, "Bundle".data,
        "USART".data, "Sub".data, "Var".data, "1.0.0".data⟩)).lookup "Cbundle").getD [] =
      "Bundle".data) ∧
    (((ComponentAttributesFromId (GetComponentID ⟨"ARM".data, "Driver".data, "Bundle".data,
        "USART".data, "Sub".data, "Var".data, "1.0.0".data⟩)).lookup "Cgroup").getD [] =
      "USART".data) ∧
    (((ComponentAttributesFromId (GetComponentID ⟨"ARM".data, "Driver".data, "Bundle".data,
        "USART".data, "Sub".data, "Var".data, "1.0.0".data⟩)).lookup "Csub").getD [] =
      "Sub".data) ∧
    (((ComponentAttributesFromId (GetComponentID ⟨"ARM".data, "Driver".data, "Bundle".data,
        "USART".data, "Sub".data, "Var".data, "1.0.0".data⟩)).lookup "Cvariant").getD [] =
      "Var".data) ∧
    (((ComponentAttributesFromId (GetComponentID ⟨"ARM".data, "Driver".data, "Bundle".data,
        "USART".data, "Sub".data, "Var".data, "1.0.0".data⟩)).lookup "Cversion").getD [] =
      "1.0.0".data) :=
  componentId_roundtrip ("ARM".data) ("Driver".data) ("Bundle".data) ("USART".data)
    ("Sub".data) ("Var".data) ("1.0.0".data) (by decide) (by decide) (by decide)
    (by decide) (by decide) (by decide) (by decide) (by decide)
    (fun _ => by decide) (fun _ => by decide)

end ProjMgr
